import Mathlib

/-!
Shallow embedding of the react-svg-worldmap widget sources
(src/lib/src/index.tsx and src/unnamed/part_000) together with proofs
about the data-binding layer and the pan/zoom interaction controller.

Numbers (JS `number`) are modelled as rationals; the infinities produced
by `Math.min()` / `Math.max()` over an empty argument list are modelled
by an explicit extended-rational type.  Caller values (`number | string`)
are modelled by a sum type.  All handler functions are total Lean
functions, mirroring the fact that the JS handlers never throw.
-/

namespace WorldMapSpec

/-- A caller-supplied value: the widget accepts `number | string`. -/
inductive Value where
  | num (q : ℚ)
  | str (s : String)
deriving DecidableEq

/-- One item of the caller dataset: `{ country, value }` from types.js. -/
structure DataItem where
  country : String
  value : Value
deriving DecidableEq

/-- JS `String.prototype.toUpperCase` as applied to country codes
(ASCII uppercasing, character by character). -/
def toUpperString (s : String) : String :=
  ⟨s.data.map Char.toUpper⟩

/-- The helper `toValue` at the bottom of index.tsx:
`typeof value === "string" ? 0 : value`. -/
def toValue (d : DataItem) : ℚ :=
  match d.value with
  | .str _ => 0
  | .num q => q

/-- Extended rationals: JS numbers together with the `Infinity` and
`-Infinity` that `Math.min()` / `Math.max()` return on empty input. -/
inductive ERat where
  | negInf
  | fin (q : ℚ)
  | posInf
deriving DecidableEq

/-- JS `Math.min` on two extended values (no NaN can arise here). -/
def jsMin : ERat → ERat → ERat
  | .negInf, _ => .negInf
  | _, .negInf => .negInf
  | .posInf, b => b
  | a, .posInf => a
  | .fin a, .fin b => .fin (min a b)

/-- JS `Math.max` on two extended values (no NaN can arise here). -/
def jsMax : ERat → ERat → ERat
  | .posInf, _ => .posInf
  | _, .posInf => .posInf
  | .negInf, b => b
  | a, .negInf => a
  | .fin a, .fin b => .fin (max a b)

/-- Boolean order on extended rationals. -/
def ERat.leB : ERat → ERat → Bool
  | .negInf, _ => true
  | _, .posInf => true
  | .posInf, _ => false
  | _, .negInf => false
  | .fin a, .fin b => decide (a ≤ b)

/-- `Math.min(...data.map(toValue))` from index.tsx line 66. -/
def minValue (data : List DataItem) : ERat :=
  data.foldr (fun d acc => jsMin (.fin (toValue d)) acc) .posInf

/-- `Math.max(...data.map(toValue))` from index.tsx line 67. -/
def maxValue (data : List DataItem) : ERat :=
  data.foldr (fun d acc => jsMax (.fin (toValue d)) acc) .negInf

/-- Insertion of one `[country.toUpperCase(), value]` entry into the
object under construction: a later entry with the same key overwrites
an earlier one. -/
def cvmStep (m : String → Option Value) (d : DataItem) : String → Option Value :=
  fun k => if k = toUpperString d.country then some d.value else m k

/-- `Object.fromEntries(data.map(({country, value}) =>
[country.toUpperCase(), value]))`: the entries are inserted in list
order, so the map is a left fold over the list. -/
def countryValueMap (data : List DataItem) : String → Option Value :=
  data.foldl cvmStep (fun _ => none)

/-- The per-country context record built for each geometry feature
(index.tsx lines 90-99).  The source fields `prefix` / `suffix` are
rendered here as `pfx` / `sfx` because `prefix` is a Lean keyword. -/
structure CountryContext where
  countryCode : String
  countryValue : Option Value
  countryName : String
  color : String
  minValue : ERat
  maxValue : ERat
  pfx : String
  sfx : String
deriving DecidableEq

/-- Construction of the `CountryContext` for one geometry feature with
ISO code `isoCode`: the value lookup uses the geometry code verbatim. -/
def countryContext (data : List DataItem) (isoCode countryName color pfx sfx : String) :
    CountryContext :=
  { countryCode := isoCode
    countryValue := countryValueMap data isoCode
    countryName := countryName
    color := color
    minValue := minValue data
    maxValue := maxValue data
    pfx := pfx
    sfx := sfx }

/-- A screen-space point (JS `clientX` / `clientY`, or a bounding-box
top-left corner). -/
@[ext]
structure Point where
  x : ℚ
  y : ℚ
deriving DecidableEq

/-- Widget state of the incremental variant (src/lib/src/index.tsx):
`scale`, `translateX`, `translateY`, `isDragging`, `dragStart`, `cursor`. -/
structure StateA where
  scale : ℚ
  translateX : ℚ
  translateY : ℚ
  isDragging : Bool
  dragStart : Point
  cursor : String
deriving DecidableEq

/-- Mouse events delivered to the incremental variant.  Its pan handlers
read only `clientX` / `clientY`; `onDoubleClick` additionally reads
`e.currentTarget.getBoundingClientRect()`, which always exists during
event dispatch, so the double-click event carries the rect corner. -/
inductive EventA where
  | mouseDown (client : Point)
  | mouseMove (client : Point)
  | mouseUp
  | mouseLeave
  | doubleClick (client : Point) (rect : Point)
deriving DecidableEq

/-- The `eventHandlers` of src/lib/src/index.tsx lines 132-173 as a step
function on the widget state. -/
def stepA (s : StateA) : EventA → StateA
  | .mouseDown p =>
    if s.scale ≤ 1 then s
    else { s with isDragging := true, cursor := "grabbing", dragStart := p }
  | .mouseMove p =>
    if s.isDragging = false ∨ s.scale ≤ 1 then s
    else
      { s with
        translateX := s.translateX + (p.x - s.dragStart.x)
        translateY := s.translateY + (p.y - s.dragStart.y)
        dragStart := p }
  | .mouseUp =>
    { s with isDragging := false, cursor := if 1 < s.scale then "grab" else "default" }
  | .mouseLeave =>
    let s1 := if s.isDragging then { s with isDragging := false } else s
    { s1 with cursor := if s1.scale > 1 then "grab" else "default" }
  | .doubleClick p rect =>
    if s.scale = 4 then
      { s with translateX := 0, translateY := 0, scale := 1, cursor := "default" }
    else
      { s with
        translateX := 2 * s.translateX - (p.x - rect.x)
        translateY := 2 * s.translateY - (p.y - rect.y)
        scale := s.scale * 2
        cursor := "grab" }

/-- Widget state of the snapshot variant (src/unnamed/part_000):
`scale`, `translate` ref, `dragStart` ref (pointer position relative to
the container at drag start), `initialTranslate` ref (translation
snapshot at drag start), `cursor`, `isDragging`. -/
structure StateB where
  scale : ℚ
  translate : Point
  dragStart : Point
  initialTranslate : Point
  cursor : String
  isDragging : Bool
deriving DecidableEq

/-- Mouse events delivered to the snapshot variant.  Its pan handlers
measure `containerRef.current?.getBoundingClientRect()`, which can be
missing (container not mounted), hence the `Option Point`; the
double-click handler uses `e.currentTarget`, which always exists. -/
inductive EventB where
  | mouseDown (client : Point) (rect : Option Point)
  | mouseMove (client : Point) (rect : Option Point)
  | mouseUp
  | mouseLeave
  | doubleClick (client : Point) (rect : Point)
deriving DecidableEq

/-- The `eventHandlers` of src/unnamed/part_000 lines 132-198 as a step
function on the widget state.  `onMouseDown` sets `isDragging` and the
cursor before checking the rect; the rect check guards only the
`dragStart` / `initialTranslate` snapshot. -/
def stepB (s : StateB) : EventB → StateB
  | .mouseDown p orect =>
    if s.scale ≤ 1 then s
    else
      let s1 := { s with isDragging := true, cursor := "grabbing" }
      match orect with
      | some r =>
        { s1 with
          dragStart := ⟨p.x - r.x, p.y - r.y⟩
          initialTranslate := s.translate }
      | none => s1
  | .mouseMove p orect =>
    if s.isDragging = false ∨ s.scale ≤ 1 then s
    else
      match orect with
      | some r =>
        { s with
          translate :=
            ⟨s.initialTranslate.x + (p.x - r.x - s.dragStart.x),
             s.initialTranslate.y + (p.y - r.y - s.dragStart.y)⟩ }
      | none => s
  | .mouseUp =>
    { s with isDragging := false, cursor := if 1 < s.scale then "grab" else "default" }
  | .mouseLeave =>
    let s1 := if s.isDragging then { s with isDragging := false } else s
    { s1 with cursor := if s1.scale > 1 then "grab" else "default" }
  | .doubleClick p rect =>
    if s.scale = 4 then
      { s with translate := ⟨0, 0⟩, scale := 1, cursor := "default" }
    else
      { s with
        translate :=
          ⟨2 * s.translate.x - (p.x - rect.x), 2 * s.translate.y - (p.y - rect.y)⟩
        scale := s.scale * 2
        cursor := "grab" }

/-- Deliver a list of move events to the incremental variant. -/
def movesA (t : StateA) (ps : List Point) : StateA :=
  ps.foldl (fun st p => stepA st (.mouseMove p)) t

/-- A full drag session of the incremental variant: pointer down at
`p0`, the listed moves in order, then pointer up. -/
def sessionA (s : StateA) (p0 : Point) (ps : List Point) : StateA :=
  stepA (movesA (stepA s (.mouseDown p0)) ps) .mouseUp

/-- Deliver a list of move events to the snapshot variant, with the
container bounding box fixed at top-left corner `r`. -/
def movesB (r : Point) (t : StateB) (ps : List Point) : StateB :=
  ps.foldl (fun st p => stepB st (.mouseMove p (some r))) t

/-- A full drag session of the snapshot variant: pointer down at `p0`,
the listed moves in order, then pointer up, with the container bounding
box fixed at top-left corner `r` throughout. -/
def sessionB (s : StateB) (r : Point) (p0 : Point) (ps : List Point) : StateB :=
  stepB (movesB r (stepB s (.mouseDown p0 (some r))) ps) .mouseUp

/-- An event is a pan event when it is not a double click. -/
def EventA.isPan : EventA → Bool
  | .doubleClick _ _ => false
  | _ => true

/-! Helper lemmas about the extended order and `Math.min` / `Math.max`. -/

theorem ERat.leB_refl (a : ERat) : ERat.leB a a = true := by
  cases a <;> simp [ERat.leB]

theorem ERat.leB_trans {a b c : ERat} (h1 : ERat.leB a b = true)
    (h2 : ERat.leB b c = true) : ERat.leB a c = true := by
  cases a <;> cases b <;> cases c <;> simp_all [ERat.leB]
  exact le_trans h1 h2

theorem leB_jsMin_left (a b : ERat) : ERat.leB (jsMin a b) a = true := by
  cases a <;> cases b <;> simp [jsMin, ERat.leB]

theorem leB_jsMin_right (a b : ERat) : ERat.leB (jsMin a b) b = true := by
  cases a <;> cases b <;> simp [jsMin, ERat.leB]

theorem leB_jsMax_left (a b : ERat) : ERat.leB a (jsMax a b) = true := by
  cases a <;> cases b <;> simp [jsMax, ERat.leB]

theorem leB_jsMax_right (a b : ERat) : ERat.leB b (jsMax a b) = true := by
  cases a <;> cases b <;> simp [jsMax, ERat.leB]

theorem minValue_cons (d : DataItem) (rest : List DataItem) :
    minValue (d :: rest) = jsMin (.fin (toValue d)) (minValue rest) := rfl

theorem maxValue_cons (d : DataItem) (rest : List DataItem) :
    maxValue (d :: rest) = jsMax (.fin (toValue d)) (maxValue rest) := rfl

/-- `minValue` is a lower bound of the coerced values of the dataset. -/
theorem minValue_leB_mem {data : List DataItem} {d : DataItem} (hd : d ∈ data) :
    ERat.leB (minValue data) (.fin (toValue d)) = true := by
  induction data with
  | nil => cases hd
  | cons e rest ih =>
    rcases List.mem_cons.mp hd with h | h
    · subst h
      exact leB_jsMin_left _ _
    · exact ERat.leB_trans (leB_jsMin_right _ _) (ih h)

/-- `maxValue` is an upper bound of the coerced values of the dataset. -/
theorem leB_mem_maxValue {data : List DataItem} {d : DataItem} (hd : d ∈ data) :
    ERat.leB (.fin (toValue d)) (maxValue data) = true := by
  induction data with
  | nil => cases hd
  | cons e rest ih =>
    rcases List.mem_cons.mp hd with h | h
    · subst h
      exact leB_jsMax_left _ _
    · exact ERat.leB_trans (ih h) (leB_jsMax_right _ _)

/-- On a nonempty dataset `minValue` is attained at some item. -/
theorem minValue_attained {data : List DataItem} (h : data ≠ []) :
    ∃ d ∈ data, minValue data = .fin (toValue d) := by
  induction data with
  | nil => exact absurd rfl h
  | cons e rest ih =>
    cases rest with
    | nil => exact ⟨e, List.mem_cons_self e _, rfl⟩
    | cons f rest2 =>
      obtain ⟨d, hd, he⟩ := ih (by simp)
      rw [minValue_cons, he]
      rcases min_choice (toValue e) (toValue d) with hc | hc
      · exact ⟨e, List.mem_cons_self e _, by simp [jsMin, hc]⟩
      · exact ⟨d, List.mem_cons_of_mem _ hd, by simp [jsMin, hc]⟩

/-- On a nonempty dataset `maxValue` is attained at some item. -/
theorem maxValue_attained {data : List DataItem} (h : data ≠ []) :
    ∃ d ∈ data, maxValue data = .fin (toValue d) := by
  induction data with
  | nil => exact absurd rfl h
  | cons e rest ih =>
    cases rest with
    | nil => exact ⟨e, List.mem_cons_self e _, rfl⟩
    | cons f rest2 =>
      obtain ⟨d, hd, he⟩ := ih (by simp)
      rw [maxValue_cons, he]
      rcases max_choice (toValue e) (toValue d) with hc | hc
      · exact ⟨e, List.mem_cons_self e _, by simp [jsMax, hc]⟩
      · exact ⟨d, List.mem_cons_of_mem _ hd, by simp [jsMax, hc]⟩

/-! Helper lemmas about the country-value lookup. -/

/-- Entries whose uppercased code differs from `k` do not affect key `k`. -/
theorem foldl_cvmStep_no_match (m0 : String → Option Value) (ys : List DataItem)
    (k : String) (h : ∀ e ∈ ys, toUpperString e.country ≠ k) :
    ys.foldl cvmStep m0 k = m0 k := by
  induction ys generalizing m0 with
  | nil => rfl
  | cons e rest ih =>
    rw [List.foldl_cons, ih _ (fun f hf => h f (List.mem_cons_of_mem _ hf))]
    simp only [cvmStep]
    rw [if_neg]
    intro hk
    exact h e (List.mem_cons_self e _) hk.symm

/-- The lookup returns the value of the last entry whose uppercased
country code equals the key. -/
theorem countryValueMap_last (pre post : List DataItem) (d : DataItem) (k : String)
    (hd : toUpperString d.country = k) (hpost : ∀ e ∈ post, toUpperString e.country ≠ k) :
    countryValueMap (pre ++ d :: post) k = some d.value := by
  unfold countryValueMap
  rw [List.foldl_append, List.foldl_cons, foldl_cvmStep_no_match _ _ _ hpost]
  simp [cvmStep, hd.symm]

/-- C3: for every dataset containing at least one item, the computed
`minValue` is less than or equal to every numeric value in the dataset,
and every numeric value in the dataset is less than or equal to the
computed `maxValue`. -/
theorem c3_min_max_bound (data : List DataItem) (d : DataItem) (hd : d ∈ data)
    (q : ℚ) (hq : d.value = .num q) :
    ERat.leB (minValue data) (.fin q) = true ∧
    ERat.leB (.fin q) (maxValue data) = true := by
  have ht : toValue d = q := by simp [toValue, hq]
  have h1 := minValue_leB_mem hd
  have h2 := leB_mem_maxValue hd
  rw [ht] at h1 h2
  exact ⟨h1, h2⟩

/-- Witness for C3 on the dataset `[{DE, 5}, {us, -3}]` at the item
`{us, -3}`. -/
theorem c3_min_max_bound_witness :
    ERat.leB (minValue [⟨"DE", .num 5⟩, ⟨"us", .num (-3)⟩]) (.fin (-3)) = true ∧
    ERat.leB (.fin (-3)) (maxValue [⟨"DE", .num 5⟩, ⟨"us", .num (-3)⟩]) = true :=
  c3_min_max_bound [⟨"DE", .num 5⟩, ⟨"us", .num (-3)⟩] ⟨"us", .num (-3)⟩
    (by simp) (-3) rfl

/-- C4: the lookup is built from caller data with codes uppercased and
the context for a geometry feature with (uppercase) ISO code `iso` has
`countryCode = iso` and resolves `countryValue` to the caller's value
whenever the caller's code uppercases to `iso`, so matching is
case-insensitive on the caller's side. -/
theorem c4_case_insensitive (data : List DataItem) (c : String) (v : Value)
    (iso nm col pf sf : String) (h : toUpperString c = iso) :
    (countryContext (data ++ [⟨c, v⟩]) iso nm col pf sf).countryCode = iso ∧
    (countryContext (data ++ [⟨c, v⟩]) iso nm col pf sf).countryValue = some v :=
  ⟨rfl, countryValueMap_last data [] ⟨c, v⟩ iso h (by simp)⟩

/-- Witness for C4: a dataset entry `"us"` and a geometry entry `"US"`
resolve to the same context, whose `countryValue` is the caller's 7. -/
theorem c4_case_insensitive_witness :
    toUpperString "us" = "US" ∧
    (countryContext ([] ++ [⟨"us", .num 7⟩]) "US" "United States" "red" "" "").countryCode
      = "US" ∧
    (countryContext ([] ++ [⟨"us", .num 7⟩]) "US" "United States" "red" "" "").countryValue
      = some (.num 7) :=
  ⟨by decide,
   (c4_case_insensitive [] "us" (.num 7) "US" "United States" "red" "" "" (by decide)).1,
   (c4_case_insensitive [] "us" (.num 7) "US" "United States" "red" "" "" (by decide)).2⟩

/-- C6: string-typed values are coerced to 0 for the range computation
only; the original string value is preserved in the lookup and appears
as the `countryValue` of the matching context; `minValue` is the minimum
and `maxValue` the maximum over the coerced values (lower/upper bound
and attained on nonempty data). -/
theorem c6_string_coerced_range (pre : List DataItem) (c s nm col pf sf : String)
    (data : List DataItem) :
    toValue ⟨c, .str s⟩ = 0 ∧
    (countryContext (pre ++ [⟨c, .str s⟩]) (toUpperString c) nm col pf sf).countryValue
      = some (.str s) ∧
    (∀ d ∈ data, ERat.leB (minValue data) (.fin (toValue d)) = true ∧
      ERat.leB (.fin (toValue d)) (maxValue data) = true) ∧
    (data ≠ [] → (∃ d ∈ data, minValue data = .fin (toValue d)) ∧
      (∃ d ∈ data, maxValue data = .fin (toValue d))) := by
  refine ⟨rfl, ?_, fun d hd => ⟨minValue_leB_mem hd, leB_mem_maxValue hd⟩,
    fun h => ⟨minValue_attained h, maxValue_attained h⟩⟩
  exact countryValueMap_last pre [] ⟨c, .str s⟩ (toUpperString c) rfl (by simp)

/-- Witness for C6 on the dataset `[{de, "n/a"}]`: the range treats the
string as 0 while the context still carries the string. -/
theorem c6_string_coerced_range_witness :
    (countryContext ([] ++ [⟨"de", .str "n/a"⟩]) (toUpperString "de") "Germany" "b" "" "").countryValue
      = some (.str "n/a") ∧
    ERat.leB (minValue [⟨"de", .str "n/a"⟩]) (.fin (toValue ⟨"de", .str "n/a"⟩)) = true ∧
    (∃ d ∈ ([⟨"de", .str "n/a"⟩] : List DataItem),
      minValue [⟨"de", .str "n/a"⟩] = .fin (toValue d)) := by
  have h := c6_string_coerced_range [] "de" "n/a" "Germany" "b" "" "" [⟨"de", .str "n/a"⟩]
  exact ⟨h.2.1, (h.2.2.1 ⟨"de", .str "n/a"⟩ (by simp)).1, (h.2.2.2 (by simp)).1⟩

/-- C7: for the empty dataset the range computation silently produces
`minValue = Infinity` and `maxValue = -Infinity` (min/max over an empty
set); the computation is a total function, so no error is raised. -/
theorem c7_empty_dataset : minValue [] = ERat.posInf ∧ maxValue [] = ERat.negInf :=
  ⟨rfl, rfl⟩

/-- C10: when several dataset items share an uppercased country code,
the lookup (and hence the matching context's `countryValue`) keeps the
value of the last such item, while earlier duplicates still participate
in the min/max range. -/
theorem c10_last_duplicate_wins (pre post : List DataItem) (c : String) (v : Value)
    (iso nm col pf sf : String) (h : toUpperString c = iso)
    (hpost : ∀ e ∈ post, toUpperString e.country ≠ iso) :
    (countryContext (pre ++ ⟨c, v⟩ :: post) iso nm col pf sf).countryValue = some v ∧
    (∀ d ∈ pre, ERat.leB (minValue (pre ++ ⟨c, v⟩ :: post)) (.fin (toValue d)) = true ∧
      ERat.leB (.fin (toValue d)) (maxValue (pre ++ ⟨c, v⟩ :: post)) = true) := by
  refine ⟨countryValueMap_last pre post ⟨c, v⟩ iso h hpost, fun d hd => ?_⟩
  have hmem : d ∈ pre ++ ⟨c, v⟩ :: post := List.mem_append_left _ hd
  exact ⟨minValue_leB_mem hmem, leB_mem_maxValue hmem⟩

/-- Witness for C10: `[{us, 1}, {US, 2}]` resolves country `US` to 2,
and the shadowed item `{us, 1}` still bounds the range. -/
theorem c10_last_duplicate_wins_witness :
    (countryContext (([⟨"us", .num 1⟩] : List DataItem) ++ ⟨"US", .num 2⟩ :: []) "US"
      "n" "c" "" "").countryValue = some (.num 2) ∧
    ERat.leB (minValue (([⟨"us", .num 1⟩] : List DataItem) ++ ⟨"US", .num 2⟩ :: []))
      (.fin (toValue ⟨"us", .num 1⟩)) = true := by
  have h := c10_last_duplicate_wins [⟨"us", .num 1⟩] [] "US" (.num 2) "US"
    "n" "c" "" "" (by decide) (by simp)
  exact ⟨h.1, (h.2 ⟨"us", .num 1⟩ (by simp)).1⟩

/-! Fold characterisations of the two move handlers. -/

/-- Effect of a list of in-order move events on the incremental variant
while a drag is active: the deltas telescope, so only the last pointer
position (and the recorded `dragStart`) matters. -/
theorem movesA_spec (ps : List Point) (t : StateA) (h1 : t.isDragging = true)
    (h2 : 1 < t.scale) :
    (movesA t ps).translateX = t.translateX + ((ps.getLastD t.dragStart).x - t.dragStart.x) ∧
    (movesA t ps).translateY = t.translateY + ((ps.getLastD t.dragStart).y - t.dragStart.y) ∧
    (movesA t ps).dragStart = ps.getLastD t.dragStart ∧
    (movesA t ps).scale = t.scale ∧
    (movesA t ps).isDragging = true ∧
    (movesA t ps).cursor = t.cursor := by
  induction ps generalizing t with
  | nil =>
    exact ⟨by simp [movesA], by simp [movesA], by simp [movesA], rfl, h1, rfl⟩
  | cons p rest ih =>
    have hstep : stepA t (.mouseMove p) =
        { t with
          translateX := t.translateX + (p.x - t.dragStart.x)
          translateY := t.translateY + (p.y - t.dragStart.y)
          dragStart := p } := by
      simp [stepA, h1, h2.not_le]
    have hfold : movesA t (p :: rest) = movesA (stepA t (.mouseMove p)) rest := rfl
    rw [hfold, hstep]
    obtain ⟨e1, e2, e3, e4, e5, e6⟩ := ih
      { t with
        translateX := t.translateX + (p.x - t.dragStart.x)
        translateY := t.translateY + (p.y - t.dragStart.y)
        dragStart := p } h1 h2
    simp only [List.getLastD_cons]
    refine ⟨?_, ?_, ?_, e4, e5, e6⟩
    · rw [e1]; simp; ring
    · rw [e2]; simp; ring
    · rw [e3]

/-- Effect of a list of in-order move events on the snapshot variant
while a drag is active with the bounding box fixed at `r`: the final
translation is recomputed from the drag-start snapshot and the last
pointer position; nothing else changes.  The default point `d0` must
reproduce the current translation, which holds at drag start. -/
theorem movesB_spec (r : Point) (ps : List Point) (t : StateB) (d0 : Point)
    (h1 : t.isDragging = true) (h2 : 1 < t.scale)
    (h0 : t.translate =
      ⟨t.initialTranslate.x + (d0.x - r.x - t.dragStart.x),
       t.initialTranslate.y + (d0.y - r.y - t.dragStart.y)⟩) :
    movesB r t ps =
      { t with translate :=
          ⟨t.initialTranslate.x + ((ps.getLastD d0).x - r.x - t.dragStart.x),
           t.initialTranslate.y + ((ps.getLastD d0).y - r.y - t.dragStart.y)⟩ } := by
  induction ps generalizing t d0 with
  | nil =>
    simp only [movesB, List.foldl_nil, List.getLastD_nil]
    rw [← h0]
  | cons p rest ih =>
    have hstep : stepB t (.mouseMove p (some r)) =
        { t with translate :=
            ⟨t.initialTranslate.x + (p.x - r.x - t.dragStart.x),
             t.initialTranslate.y + (p.y - r.y - t.dragStart.y)⟩ } := by
      simp [stepB, h1, h2.not_le]
    have hfold : movesB r t (p :: rest) = movesB r (stepB t (.mouseMove p (some r))) rest := rfl
    rw [hfold, hstep]
    have ihT := ih
      { t with translate :=
          ⟨t.initialTranslate.x + (p.x - r.x - t.dragStart.x),
           t.initialTranslate.y + (p.y - r.y - t.dragStart.y)⟩ }
      p h1 h2 rfl
    rw [ihT, List.getLastD_cons]

/-- Final translation of a full drag session of the snapshot variant:
it is determined by the translation snapshot at drag start, the first
pointer position `p0` and the last pointer position. -/
theorem sessionB_translate (s : StateB) (r p0 : Point) (ps : List Point)
    (h : 1 < s.scale) :
    (sessionB s r p0 ps).translate =
      ⟨s.translate.x + ((ps.getLastD p0).x - p0.x),
       s.translate.y + ((ps.getLastD p0).y - p0.y)⟩ := by
  have hdown : stepB s (.mouseDown p0 (some r)) =
      { s with
        isDragging := true
        cursor := "grabbing"
        dragStart := ⟨p0.x - r.x, p0.y - r.y⟩
        initialTranslate := s.translate } := by
    simp [stepB, h.not_le]
  unfold sessionB
  rw [hdown]
  have hmv := movesB_spec r ps
    { s with
      isDragging := true
      cursor := "grabbing"
      dragStart := ⟨p0.x - r.x, p0.y - r.y⟩
      initialTranslate := s.translate }
    p0 rfl h (by ext <;> simp)
  rw [hmv]
  simp [stepB]

/-- Final translation of a full drag session of the incremental variant:
the per-move deltas telescope to the same value. -/
theorem sessionA_translate (s : StateA) (p0 : Point) (ps : List Point)
    (h : 1 < s.scale) :
    (sessionA s p0 ps).translateX = s.translateX + ((ps.getLastD p0).x - p0.x) ∧
    (sessionA s p0 ps).translateY = s.translateY + ((ps.getLastD p0).y - p0.y) := by
  have hdown : stepA s (.mouseDown p0) =
      { s with isDragging := true, cursor := "grabbing", dragStart := p0 } := by
    simp [stepA, h.not_le]
  unfold sessionA
  rw [hdown]
  obtain ⟨e1, e2, e3, e4, e5, e6⟩ := movesA_spec ps
    { s with isDragging := true, cursor := "grabbing", dragStart := p0 } rfl h
  constructor
  · show (movesA _ ps).translateX = _
    rw [e1]
  · show (movesA _ ps).translateY = _
    rw [e2]

/-- C1: for every drag session of the snapshot variant (pointer down at
scale > 1, any sequence of in-order move events, pointer up, fixed
bounding box), the final translation depends only on the translation
snapshot at drag start, the first pointer position `p0` and the last
pointer position: it equals the snapshot plus (last − first).
Intermediate move events are therefore redundant to the final state. -/
theorem c1_drag_session_snapshot (s : StateB) (r p0 : Point) (ps : List Point)
    (h : 1 < s.scale) :
    (sessionB s r p0 ps).translate =
      ⟨s.translate.x + ((ps.getLastD p0).x - p0.x),
       s.translate.y + ((ps.getLastD p0).y - p0.y)⟩ :=
  sessionB_translate s r p0 ps h

/-- Witness for C1, the worked example: container at origin, scale 2,
initial translation (0,0), pointer down at (100,100), moves to
(150,130) then (120,90): the final translation is (20,-10), not
(70,20). -/
theorem c1_drag_session_snapshot_witness :
    (sessionB ⟨2, ⟨0, 0⟩, ⟨0, 0⟩, ⟨0, 0⟩, "grab", false⟩ ⟨0, 0⟩ ⟨100, 100⟩
        [⟨150, 130⟩, ⟨120, 90⟩]).translate = ⟨20, -10⟩ := by
  have h := c1_drag_session_snapshot ⟨2, ⟨0, 0⟩, ⟨0, 0⟩, ⟨0, 0⟩, "grab", false⟩
    ⟨0, 0⟩ ⟨100, 100⟩ [⟨150, 130⟩, ⟨120, 90⟩] (by norm_num)
  rw [h]
  ext <;> simp [List.getLastD_cons, List.getLastD_nil] <;> norm_num

/-- At scale 4 a double click resets the transform. -/
theorem stepA_doubleClick_reset (s : StateA) (p r : Point) (h : s.scale = 4) :
    stepA s (.doubleClick p r) =
      { s with translateX := 0, translateY := 0, scale := 1, cursor := "default" } := by
  simp [stepA, h]

/-- Away from scale 4 a double click doubles the scale. -/
theorem stepA_doubleClick_scale (s : StateA) (p r : Point) (h : s.scale ≠ 4) :
    (stepA s (.doubleClick p r)).scale = s.scale * 2 := by
  simp [stepA, h]

/-- C2: the double-click transition, in any state: at scale 4 it resets
the scale to 1 and the translation to exactly (0,0); otherwise it
doubles the scale and sets the translation to 2 × old translation −
the click position relative to the container's bounding box.  From
scale 1, three double-clicks produce scales 2, 4, 1 (wrapping, never
reaching 8) with translation reset on the wrap. -/
theorem c2_double_click (s : StateA) (p rect p1 r1 p2 r2 p3 r3 : Point) :
    ((s.scale = 4 → stepA s (.doubleClick p rect) =
        { s with translateX := 0, translateY := 0, scale := 1, cursor := "default" }) ∧
     (s.scale ≠ 4 →
        (stepA s (.doubleClick p rect)).scale = s.scale * 2 ∧
        (stepA s (.doubleClick p rect)).translateX = 2 * s.translateX - (p.x - rect.x) ∧
        (stepA s (.doubleClick p rect)).translateY = 2 * s.translateY - (p.y - rect.y))) ∧
    (s.scale = 1 →
      (stepA s (.doubleClick p1 r1)).scale = 2 ∧
      (stepA (stepA s (.doubleClick p1 r1)) (.doubleClick p2 r2)).scale = 4 ∧
      (stepA (stepA (stepA s (.doubleClick p1 r1)) (.doubleClick p2 r2))
          (.doubleClick p3 r3)).scale = 1 ∧
      (stepA (stepA (stepA s (.doubleClick p1 r1)) (.doubleClick p2 r2))
          (.doubleClick p3 r3)).translateX = 0 ∧
      (stepA (stepA (stepA s (.doubleClick p1 r1)) (.doubleClick p2 r2))
          (.doubleClick p3 r3)).translateY = 0) := by
  refine ⟨⟨fun h4 => stepA_doubleClick_reset s p rect h4,
    fun hn => ⟨stepA_doubleClick_scale s p rect hn, ?_, ?_⟩⟩, fun h1 => ?_⟩
  · simp [stepA, hn]
  · simp [stepA, hn]
  have e1 : (stepA s (.doubleClick p1 r1)).scale = 2 := by
    rw [stepA_doubleClick_scale s p1 r1 (by rw [h1]; norm_num), h1]
    norm_num
  have e2 : (stepA (stepA s (.doubleClick p1 r1)) (.doubleClick p2 r2)).scale = 4 := by
    rw [stepA_doubleClick_scale _ p2 r2 (by rw [e1]; norm_num), e1]
    norm_num
  have e3 := stepA_doubleClick_reset _ p3 r3 e2
  exact ⟨e1, e2, by rw [e3], by rw [e3], by rw [e3]⟩

/-- Witness for C2: from scale 4 a double click resets, and from scale 1
three double-clicks take the scale through 2 and 4 back to 1 with the
translation reset to (0,0). -/
theorem c2_double_click_witness :
    stepA ⟨4, 10, 20, false, ⟨0, 0⟩, "grab"⟩ (.doubleClick ⟨3, 4⟩ ⟨1, 1⟩) =
      ⟨1, 0, 0, false, ⟨0, 0⟩, "default"⟩ ∧
    (stepA (stepA (stepA ⟨1, 10, 20, false, ⟨0, 0⟩, "default"⟩ (.doubleClick ⟨3, 4⟩ ⟨1, 1⟩))
        (.doubleClick ⟨5, 6⟩ ⟨0, 0⟩)) (.doubleClick ⟨7, 8⟩ ⟨2, 2⟩)).scale = 1 ∧
    (stepA (stepA (stepA ⟨1, 10, 20, false, ⟨0, 0⟩, "default"⟩ (.doubleClick ⟨3, 4⟩ ⟨1, 1⟩))
        (.doubleClick ⟨5, 6⟩ ⟨0, 0⟩)) (.doubleClick ⟨7, 8⟩ ⟨2, 2⟩)).translateX = 0 := by
  have h4 := (c2_double_click ⟨4, 10, 20, false, ⟨0, 0⟩, "grab"⟩ ⟨3, 4⟩ ⟨1, 1⟩
    ⟨3, 4⟩ ⟨1, 1⟩ ⟨5, 6⟩ ⟨0, 0⟩ ⟨7, 8⟩ ⟨2, 2⟩).1.1 rfl
  have h1 := (c2_double_click ⟨1, 10, 20, false, ⟨0, 0⟩, "default"⟩ ⟨3, 4⟩ ⟨1, 1⟩
    ⟨3, 4⟩ ⟨1, 1⟩ ⟨5, 6⟩ ⟨0, 0⟩ ⟨7, 8⟩ ⟨2, 2⟩).2 rfl
  exact ⟨h4, h1.2.2.1, h1.2.2.2.1⟩

/-- C5: at scale ≤ 1, any sequence of pan events (mouse down, move, up,
leave — no double click) leaves the translation and the scale of the
incremental variant unchanged. -/
theorem c5_no_pan_at_low_scale (s : StateA) (evs : List EventA)
    (h1 : s.scale ≤ 1) (h2 : ∀ e ∈ evs, e.isPan = true) :
    (evs.foldl stepA s).translateX = s.translateX ∧
    (evs.foldl stepA s).translateY = s.translateY ∧
    (evs.foldl stepA s).scale = s.scale := by
  induction evs generalizing s with
  | nil => exact ⟨rfl, rfl, rfl⟩
  | cons e rest ih =>
    have he := h2 e (List.mem_cons_self e _)
    have hrest : ∀ f ∈ rest, f.isPan = true :=
      fun f hf => h2 f (List.mem_cons_of_mem _ hf)
    have hstep : (stepA s e).translateX = s.translateX ∧
        (stepA s e).translateY = s.translateY ∧ (stepA s e).scale = s.scale := by
      cases e with
      | mouseDown p => simp [stepA, h1]
      | mouseMove p => simp [stepA, h1]
      | mouseUp => exact ⟨rfl, rfl, rfl⟩
      | mouseLeave => cases hd : s.isDragging <;> simp [stepA, hd]
      | doubleClick p r => simp [EventA.isPan] at he
    rw [List.foldl_cons]
    have hind := ih (stepA s e) (by rw [hstep.2.2]; exact h1) hrest
    exact ⟨by rw [hind.1, hstep.1], by rw [hind.2.1, hstep.2.1],
      by rw [hind.2.2, hstep.2.2]⟩

/-- Witness for C5: a down/move/move/up sequence at scale 1 leaves the
translation (5,7) and the scale unchanged. -/
theorem c5_no_pan_at_low_scale_witness :
    (([.mouseDown ⟨10, 10⟩, .mouseMove ⟨30, 40⟩, .mouseMove ⟨50, 60⟩, .mouseUp] :
        List EventA).foldl stepA ⟨1, 5, 7, false, ⟨0, 0⟩, "default"⟩).translateX = 5 ∧
    (([.mouseDown ⟨10, 10⟩, .mouseMove ⟨30, 40⟩, .mouseMove ⟨50, 60⟩, .mouseUp] :
        List EventA).foldl stepA ⟨1, 5, 7, false, ⟨0, 0⟩, "default"⟩).translateY = 7 ∧
    (([.mouseDown ⟨10, 10⟩, .mouseMove ⟨30, 40⟩, .mouseMove ⟨50, 60⟩, .mouseUp] :
        List EventA).foldl stepA ⟨1, 5, 7, false, ⟨0, 0⟩, "default"⟩).scale = 1 :=
  c5_no_pan_at_low_scale ⟨1, 5, 7, false, ⟨0, 0⟩, "default"⟩
    [.mouseDown ⟨10, 10⟩, .mouseMove ⟨30, 40⟩, .mouseMove ⟨50, 60⟩, .mouseUp]
    (by norm_num) (by decide)

/-- Counterexample to C8 as stated: in the snapshot variant, a pointer
down with a missing bounding box is not a no-op for that event — from
an idle state at scale 2 it still flips `isDragging` (and the cursor),
so the resulting state differs from the starting state. -/
theorem c8_counterexample :
    stepB ⟨2, ⟨0, 0⟩, ⟨0, 0⟩, ⟨0, 0⟩, "default", false⟩ (.mouseDown ⟨5, 5⟩ none) ≠
      ⟨2, ⟨0, 0⟩, ⟨0, 0⟩, ⟨0, 0⟩, "default", false⟩ := by
  decide

/-- C8 amended: all handlers are total functions (never throw).  With a
missing bounding box, pointer move is a complete no-op, and pointer
down leaves the transform and the drag references unchanged — but it is
not a full no-op: at scale > 1 it still sets `isDragging` and the
grabbing cursor.  A pointer leave always transitions to Idle
(`isDragging = false`), even with no matching pointer down. -/
theorem c8_amended_no_rect (s : StateB) (p : Point) :
    ((stepB s (.mouseDown p none)).translate = s.translate ∧
     (stepB s (.mouseDown p none)).dragStart = s.dragStart ∧
     (stepB s (.mouseDown p none)).initialTranslate = s.initialTranslate ∧
     (stepB s (.mouseDown p none)).scale = s.scale ∧
     (1 < s.scale → (stepB s (.mouseDown p none)).isDragging = true ∧
        (stepB s (.mouseDown p none)).cursor = "grabbing")) ∧
    stepB s (.mouseMove p none) = s ∧
    (stepB s .mouseLeave).isDragging = false := by
  refine ⟨?_, ?_, ?_⟩
  · by_cases hs : s.scale ≤ 1 <;> simp [stepB, hs]
  · by_cases hc : s.isDragging = false ∨ s.scale ≤ 1 <;> simp [stepB, hc]
  · cases hd : s.isDragging <;> simp [stepB, hd]

/-- Witness for C8 amended, at scale 2: pointer down without a rect
keeps the translation but sets `isDragging`; move without a rect is the
identity; leave returns to Idle. -/
theorem c8_amended_no_rect_witness :
    (stepB ⟨2, ⟨3, 4⟩, ⟨1, 1⟩, ⟨2, 2⟩, "grab", false⟩ (.mouseDown ⟨5, 5⟩ none)).translate
      = ⟨3, 4⟩ ∧
    (stepB ⟨2, ⟨3, 4⟩, ⟨1, 1⟩, ⟨2, 2⟩, "grab", false⟩ (.mouseDown ⟨5, 5⟩ none)).isDragging
      = true ∧
    stepB ⟨2, ⟨3, 4⟩, ⟨1, 1⟩, ⟨2, 2⟩, "grab", false⟩ (.mouseMove ⟨5, 5⟩ none)
      = ⟨2, ⟨3, 4⟩, ⟨1, 1⟩, ⟨2, 2⟩, "grab", false⟩ ∧
    (stepB ⟨2, ⟨3, 4⟩, ⟨1, 1⟩, ⟨2, 2⟩, "grab", false⟩ .mouseLeave).isDragging = false := by
  have h := c8_amended_no_rect ⟨2, ⟨3, 4⟩, ⟨1, 1⟩, ⟨2, 2⟩, "grab", false⟩ ⟨5, 5⟩
  exact ⟨h.1.1, (h.1.2.2.2.2 (by norm_num)).1, h.2.1, h.2.2⟩

/-- C9: with a fixed container bounding box and in-order delivery, the
incremental variant and the snapshot variant compute the same final
translation for every drag session started at scale > 1 from matching
states. -/
theorem c9_variants_agree (sA : StateA) (sB : StateB) (r p0 : Point) (ps : List Point)
    (hx : sA.translateX = sB.translate.x) (hy : sA.translateY = sB.translate.y)
    (hs : sA.scale = sB.scale) (h : 1 < sB.scale) :
    (sessionA sA p0 ps).translateX = (sessionB sB r p0 ps).translate.x ∧
    (sessionA sA p0 ps).translateY = (sessionB sB r p0 ps).translate.y := by
  have hA := sessionA_translate sA p0 ps (by rw [hs]; exact h)
  have hB := sessionB_translate sB r p0 ps h
  rw [hA.1, hA.2, hB, hx, hy]
  exact ⟨rfl, rfl⟩

/-- Witness for C9: on the worked-example drag both variants end with
translation (20,-10). -/
theorem c9_variants_agree_witness :
    (sessionA ⟨2, 0, 0, false, ⟨0, 0⟩, "grab"⟩ ⟨100, 100⟩
        [⟨150, 130⟩, ⟨120, 90⟩]).translateX =
      (sessionB ⟨2, ⟨0, 0⟩, ⟨0, 0⟩, ⟨0, 0⟩, "grab", false⟩ ⟨7, 9⟩ ⟨100, 100⟩
        [⟨150, 130⟩, ⟨120, 90⟩]).translate.x ∧
    (sessionA ⟨2, 0, 0, false, ⟨0, 0⟩, "grab"⟩ ⟨100, 100⟩
        [⟨150, 130⟩, ⟨120, 90⟩]).translateY =
      (sessionB ⟨2, ⟨0, 0⟩, ⟨0, 0⟩, ⟨0, 0⟩, "grab", false⟩ ⟨7, 9⟩ ⟨100, 100⟩
        [⟨150, 130⟩, ⟨120, 90⟩]).translate.y :=
  c9_variants_agree ⟨2, 0, 0, false, ⟨0, 0⟩, "grab"⟩
    ⟨2, ⟨0, 0⟩, ⟨0, 0⟩, ⟨0, 0⟩, "grab", false⟩ ⟨7, 9⟩ ⟨100, 100⟩
    [⟨150, 130⟩, ⟨120, 90⟩] rfl rfl rfl (by norm_num)

end WorldMapSpec
